import Mathlib

/-!
A shallow embedding of the suihorse command-line dispatch library
(src/app.rs, src/command.rs, src/error.rs).

Rust strings are modelled as lists of characters (`Tok`); Rust `Action`
values (`fn(Vec<String>)`) are opaque function pointers whose only
dispatch-relevant property is presence, so invoking one is recorded as
an `Effect` value instead.  A Rust panic is modelled as `Option.none`.
The crate's `help` module is not part of the sources; following the
spec, the `Help::help` method renders `help_text` to standard output,
which the embedding records as a help `Effect` carrying that text.
-/

namespace Suihorse

/-- A Rust `String` token, modelled as its character list. -/
abbrev Tok := List Char

/-- The token `"-h"`. -/
def hFlag : Tok := "-h".toList

/-- The token `"--help"`. -/
def helpFlag : Tok := "--help".toList

/-- `Command` (src/command.rs).  The `action` field models
`Option<Action>`: a function pointer is opaque, so only its presence is
kept. -/
structure Command where
  name : Tok
  aliases : Option (List Tok)
  description : Option Tok
  usage : Option Tok
  action : Option Unit
deriving DecidableEq

/-- `App` (src/app.rs).  The default `action : Action` field is an
always-present opaque function pointer; invoking it is recorded as an
`Effect`, so it needs no field here. -/
structure App where
  usage : Tok
  commands : List Command
deriving DecidableEq

/-- The observable outcome of one dispatch: which help text was printed,
or which action was invoked and with which argument list. -/
inductive Effect where
  | appHelp (text : Tok)
  | cmdHelp (text : Tok)
  | appAction (args : List Tok)
  | cmdAction (name : Tok) (args : List Tok)
deriving DecidableEq

/-- `ActionErrorKind` (src/error.rs). -/
inductive ActionErrorKind where
  | NotFound
deriving DecidableEq

/-- `Result<(), Box<dyn Error>>` as the dispatch functions use it: the
only error value the crate defines is `ActionError` with a kind. -/
inductive DispatchResult where
  | ok
  | err (kind : ActionErrorKind)
deriving DecidableEq

/-- Rust `starts_with('-')`. -/
def startsDash : Tok → Bool
  | [] => false
  | c :: _ => c = '-'

/-- First piece of Rust `splitn(2, '=')`: everything before the first
`=`. -/
def splitBefore (t : Tok) : Tok := t.takeWhile (fun c => c != '=')

/-- Second piece of Rust `splitn(2, '=')`: everything after the first
`=`. -/
def splitAfter (t : Tok) : Tok := (t.dropWhile (fun c => c != '=')).drop 1

/-- One step of the normalizing fold: a token starting with `-` and
containing `=` becomes its two `splitn(2, '=')` pieces, any other token
passes through. -/
def splitArg (t : Tok) : List Tok :=
  if startsDash t = true ∧ '=' ∈ t then [splitBefore t, splitAfter t] else [t]

/-- `normalized_args` — the identical private helper of both
`App` (src/app.rs) and `Command` (src/command.rs). -/
def normalized_args (raw_args : List Tok) : List Tok :=
  raw_args.foldl (fun acc cur => acc ++ splitArg cur) []

/-- `impl Help for Command` (src/command.rs): optional description block
followed by optional usage block. -/
def Command.help_text (c : Command) : Tok :=
  (match c.description with
    | some d => "Description:\n\t".toList ++ d ++ "\n\n".toList
    | none => []) ++
  (match c.usage with
    | some u => "Usage:\n\t".toList ++ u ++ "\n\n".toList
    | none => [])

/-- `Command::run_with_result` (src/command.rs).  With an action: help
flags short-circuit to command help, otherwise the action runs on the
full normalized token list.  Without an action: command help is printed
and the function returns `Ok(())`. -/
def Command.run_with_result (c : Command) (args : List Tok) :
    Effect × DispatchResult :=
  let nargs := normalized_args args
  match c.action with
  | some _ =>
    if hFlag ∈ nargs ∨ helpFlag ∈ nargs then (.cmdHelp c.help_text, .ok)
    else (.cmdAction c.name nargs, .ok)
  | none => (.cmdHelp c.help_text, .ok)

/-- The rendered name column of one command in the application help
table: `format!("{}, {}", alias.join(", "), c.name)` when aliases are
present, else the bare name. -/
def commandNameRendered (c : Command) : Tok :=
  match c.aliases with
  | some al => List.intercalate ", ".toList al ++ (", ".toList ++ c.name)
  | none => c.name

/-- The command description, or the empty string when absent. -/
def descOr (c : Command) : Tok :=
  match c.description with
  | some d => d
  | none => []

/-- One line of the command table:
`format!("\t{} {}: {}\n", name, " ".repeat(max - name.len()), desc)`. -/
def helpLine (name_max_len : Nat) (c : Command) : Tok :=
  '\t' :: (commandNameRendered c ++
    ' ' :: (List.replicate (name_max_len - (commandNameRendered c).length) ' ' ++
      (": ".toList ++ (descOr c ++ ['\n']))))

/-- `App::command_help_text` (src/app.rs).  The `.max().unwrap()` over
the rendered name lengths panics (`none`) when the command list is
empty. -/
def App.command_help_text (app : App) : Option Tok :=
  match (app.commands.map (fun c => (commandNameRendered c).length)).max? with
  | none => none
  | some m => some ("\nCommands:\n".toList ++ (app.commands.map (helpLine m)).flatten)

/-- `impl Help for App` (src/app.rs): usage block then command table. -/
def App.help_text (app : App) : Option Tok :=
  (App.command_help_text app).map
    (fun cht => "Usage:\n\t".toList ++ app.usage ++ ("\n\n".toList ++ cht))

/-- `App::command` (src/app.rs): panics (`none`) iff a command with the
same name is already registered, otherwise pushes the new command at the
end. -/
def App.command (app : App) (c : Command) : Option App :=
  if app.commands.any (fun r => r.name == c.name) then none
  else some ⟨app.usage, app.commands ++ [c]⟩

/-- The matching predicate of `App::run_with_result`: the candidate
token equals the command name or any of its aliases. -/
def cmdMatches (c : Command) (cmd : Tok) : Bool :=
  match c.aliases with
  | some al => c.name == cmd || al.any (fun a => a == cmd)
  | none => c.name == cmd

/-- `App::run_with_result` (src/app.rs).  `args.split_at(1)` panics
(`none`) on an empty vector; the candidate token `cmd` is element 0 of
the normalized vector; on a match the command dispatches on the
remaining elements; otherwise a help flag anywhere in the normalized
vector renders application help (which panics when `help_text` does),
and failing that the default action runs on the elements after the
first. -/
def App.run_with_result (app : App) (args : List Tok) :
    Option (Effect × DispatchResult) :=
  match normalized_args args with
  | [] => none
  | cmd :: rest =>
    match app.commands.find? (fun c => cmdMatches c cmd) with
    | some c => some (c.run_with_result rest)
    | none =>
      if hFlag ∈ cmd :: rest ∨ helpFlag ∈ cmd :: rest then
        match App.help_text app with
        | some t => some (.appHelp t, .ok)
        | none => none
      else some (.appAction rest, .ok)

/-- `App::run` (src/app.rs): propagates a panic and panics itself on an
`Err` result. -/
def App.run (app : App) (args : List Tok) : Option Effect :=
  match App.run_with_result app args with
  | none => none
  | some (e, .ok) => some e
  | some (_, .err _) => none

/-- The `hello` command of the spec's end-to-end example: alias `hi`,
with an action. -/
def helloCmd : Command := ⟨"hello".toList, some ["hi".toList], none, none, some ()⟩

/-- An application with the single command `hello` (alias `hi`) and a
default action. -/
def helloApp : App := ⟨"cli [command] [arg]".toList, [helloCmd]⟩

/-- An application with no registered commands. -/
def emptyApp : App := ⟨"cli".toList, []⟩

/-- An application whose only command is named `hello`, without
aliases. -/
def helloOnlyApp : App :=
  ⟨"cli".toList, [⟨"hello".toList, none, none, none, some ()⟩]⟩

/-- A command with no configured action. -/
def noActionCmd : Command :=
  ⟨"noop".toList, none, some "does nothing".toList, none, none⟩

/-! ## General lemmas about the embedding -/

theorem foldl_splitArg (l : List Tok) (acc : List Tok) :
    l.foldl (fun a cur => a ++ splitArg cur) acc = acc ++ (l.map splitArg).flatten := by
  induction l generalizing acc with
  | nil => simp
  | cons x xs ih => simp [ih]

theorem normalized_args_eq_flatten (l : List Tok) :
    normalized_args l = (l.map splitArg).flatten := by
  simpa [normalized_args] using foldl_splitArg l []

theorem splitBefore_append_splitAfter (t : Tok) (h : '=' ∈ t) :
    splitBefore t ++ '=' :: splitAfter t = t := by
  induction t with
  | nil => cases h
  | cons c cs ih =>
    by_cases hc : c = '='
    · subst hc
      simp [splitBefore, splitAfter]
    · have h' : '=' ∈ cs := by
        cases List.mem_cons.mp h with
        | inl h1 => exact absurd h1.symm hc
        | inr h1 => exact h1
      have hb : splitBefore (c :: cs) = c :: splitBefore cs := by
        simp [splitBefore, List.takeWhile_cons, hc]
      have ha : splitAfter (c :: cs) = splitAfter cs := by
        simp [splitAfter, List.dropWhile_cons, hc]
      rw [hb, ha, List.cons_append, ih h']

theorem eq_char_not_mem_splitBefore (t : Tok) : '=' ∉ splitBefore t := by
  intro h
  have := List.mem_takeWhile_imp h
  simp at this

theorem command_run_snd_ok (c : Command) (args : List Tok) :
    (c.run_with_result args).2 = DispatchResult.ok := by
  unfold Command.run_with_result
  cases c.action with
  | none => rfl
  | some a =>
    dsimp only
    split <;> rfl

theorem help_text_isSome_of_ne_nil (app : App) (h : app.commands ≠ []) :
    (App.help_text app).isSome = true := by
  unfold App.help_text App.command_help_text
  cases hm : (app.commands.map (fun c => (commandNameRendered c).length)).max? with
  | none =>
    rw [List.max?_eq_none_iff] at hm
    exact absurd (List.map_eq_nil_iff.mp hm) h
  | some m => rfl

/-! ## Claims -/

/-- C3: normalization preserves order (it is the concatenation of the
per-token images, in order); every token starting with `-` and
containing `=` maps to exactly two consecutive tokens split at the first
`=` (the part before the split contains no `=`, and rejoining the two
output tokens with `=` reproduces the original token); every other
token passes through unchanged; the token count grows by exactly one per
split token. -/
theorem normalization_spec (l : List Tok) :
    normalized_args l = (l.map splitArg).flatten
  ∧ (∀ t : Tok, startsDash t = true → '=' ∈ t →
        splitArg t = [splitBefore t, splitAfter t]
      ∧ splitBefore t ++ '=' :: splitAfter t = t
      ∧ '=' ∉ splitBefore t)
  ∧ (∀ t : Tok, ¬(startsDash t = true ∧ '=' ∈ t) → splitArg t = [t])
  ∧ (normalized_args l).length
      = l.length + l.countP (fun t => decide (startsDash t = true ∧ '=' ∈ t)) := by
  refine ⟨normalized_args_eq_flatten l, ?_, ?_, ?_⟩
  · intro t h1 h2
    exact ⟨by simp [splitArg, h1, h2], splitBefore_append_splitAfter t h2,
      eq_char_not_mem_splitBefore t⟩
  · intro t ht
    simp [splitArg, ht]
  · rw [normalized_args_eq_flatten]
    induction l with
    | nil => simp
    | cons x xs ih =>
      by_cases hx : startsDash x = true ∧ '=' ∈ x
      · simp [splitArg, hx, List.countP_cons, ih]
        omega
      · simp [splitArg, hx, List.countP_cons, ih]
        omega

/-- Witness for C3 at the spec's own examples `--flag=a=b` and
`key=val`. -/
theorem normalization_spec_witness :
    normalized_args ["--flag=a=b".toList, "key=val".toList]
      = ((["--flag=a=b".toList, "key=val".toList] : List Tok).map splitArg).flatten
  ∧ splitArg "--flag=a=b".toList
      = [splitBefore "--flag=a=b".toList, splitAfter "--flag=a=b".toList]
  ∧ splitBefore "--flag=a=b".toList ++ '=' :: splitAfter "--flag=a=b".toList
      = "--flag=a=b".toList
  ∧ splitArg "key=val".toList = ["key=val".toList] :=
  ⟨(normalization_spec ["--flag=a=b".toList, "key=val".toList]).1,
   ((normalization_spec ["--flag=a=b".toList, "key=val".toList]).2.1
      "--flag=a=b".toList (by decide) (by decide)).1,
   ((normalization_spec ["--flag=a=b".toList, "key=val".toList]).2.1
      "--flag=a=b".toList (by decide) (by decide)).2.1,
   (normalization_spec ["--flag=a=b".toList, "key=val".toList]).2.2.1
      "key=val".toList (by decide)⟩

/-- C1 (evaluation at the failing input): with the command `hello`
(alias `hi`) registered and a default action, the input
`["prog", "hi", "world"]` does NOT reach the hello action — the code
takes the candidate command name from index 0 of the normalized vector
(the program-path token `"prog"`), finds no match, and invokes the
application default action with `["hi", "world"]`. -/
theorem candidate_taken_from_program_token :
    App.run_with_result helloApp ["prog".toList, "hi".toList, "world".toList]
      = some (.appAction ["hi".toList, "world".toList], .ok) := by decide

/-- C2 (counterexample): dispatching to a command with no action returns
`Ok` — the pair is command help together with `DispatchResult.ok`, not
the `NotFound` error the claim states. -/
theorem no_action_returns_ok_counterexample :
    noActionCmd.run_with_result ["arg".toList]
      = (.cmdHelp noActionCmd.help_text, .ok) := by decide

/-- C2 (amended): for every Command whose action is absent and every
token sequence, command-level dispatch prints the Command's help text
and returns success (`Ok`); the `NotFound` error kind is defined in
src/error.rs but never produced. -/
theorem no_action_prints_help_and_ok (c : Command) (args : List Tok)
    (h : c.action = none) :
    c.run_with_result args = (.cmdHelp c.help_text, .ok) := by
  simp [Command.run_with_result, h]

/-- Witness for the amended C2. -/
theorem no_action_prints_help_and_ok_witness :
    noActionCmd.action = none
  ∧ noActionCmd.run_with_result ["x".toList]
      = (.cmdHelp noActionCmd.help_text, .ok) :=
  ⟨rfl, no_action_prints_help_and_ok noActionCmd ["x".toList] rfl⟩

/-- C8: dispatch splits off the first element of the normalized argument
vector unconditionally, so on the empty argument vector both
`App::run_with_result` and `App::run` panic. -/
theorem run_on_empty_args_panics (app : App) :
    App.run_with_result app [] = none ∧ App.run app [] = none := by
  have h : App.run_with_result app [] = none := by
    simp [App.run_with_result, normalized_args]
  exact ⟨h, by simp [App.run, h]⟩

/-- C4: for an App whose registered command list is exactly one command
named `hello` (no aliases, any description, usage or action), the input
`["prog", "bye", "x"]` names no registered command and contains no help
flag, so App-level dispatch invokes the default action with exactly the
tokens after the program name, `["bye", "x"]`, and returns success. -/
theorem unknown_command_falls_back_to_default (app : App) (d u : Option Tok)
    (a : Option Unit) (hc : app.commands = [⟨"hello".toList, none, d, u, a⟩]) :
    App.run_with_result app ["prog".toList, "bye".toList, "x".toList]
      = some (.appAction ["bye".toList, "x".toList], .ok) := by
  have hn : normalized_args ["prog".toList, "bye".toList, "x".toList]
      = ["prog".toList, "bye".toList, "x".toList] := by decide
  have hfind : app.commands.find? (fun c => cmdMatches c ("prog".toList)) = none := by
    rw [hc]
    simp [List.find?, cmdMatches]
  simp only [App.run_with_result, hn, hfind]
  rw [if_neg (by decide)]

/-- Witness for C4. -/
theorem unknown_command_falls_back_to_default_witness :
    helloOnlyApp.commands = [⟨"hello".toList, none, none, none, some ()⟩]
  ∧ App.run_with_result helloOnlyApp ["prog".toList, "bye".toList, "x".toList]
      = some (.appAction ["bye".toList, "x".toList], .ok) :=
  ⟨rfl, unknown_command_falls_back_to_default helloOnlyApp none none (some ()) rfl⟩

/-- C5 (counterexample): an application with no registered commands and
a help flag in the input does not print help and return success — help
rendering panics on the empty command list. -/
theorem help_flag_with_no_commands_counterexample :
    App.run_with_result emptyApp ["prog".toList, "--help".toList] = none := by decide

/-- C5 (amended): a `-h` or `--help` token anywhere in the normalized
tokens at the relevant level renders help, invokes no action, and
returns success — at App level whenever no registered command matches
the candidate token, provided at least one command is registered (with
an empty command list help rendering panics instead), and at Command
level for every Command with an action. -/
theorem help_flag_short_circuits :
    (∀ (app : App) (args : List Tok) (cmd : Tok) (rest : List Tok),
        normalized_args args = cmd :: rest →
        hFlag ∈ cmd :: rest ∨ helpFlag ∈ cmd :: rest →
        app.commands.find? (fun c => cmdMatches c cmd) = none →
        app.commands ≠ [] →
        (App.help_text app).isSome = true
      ∧ App.run_with_result app args
          = (App.help_text app).map (fun t => (Effect.appHelp t, DispatchResult.ok)))
  ∧ (∀ (c : Command) (args : List Tok),
        c.action ≠ none →
        hFlag ∈ normalized_args args ∨ helpFlag ∈ normalized_args args →
        c.run_with_result args = (.cmdHelp c.help_text, .ok)) := by
  constructor
  · intro app args cmd rest hsplit hhelp hfind hne
    refine ⟨help_text_isSome_of_ne_nil app hne, ?_⟩
    cases ht : App.help_text app with
    | none =>
      have := help_text_isSome_of_ne_nil app hne
      rw [ht] at this
      cases this
    | some t =>
      simp only [App.run_with_result, hsplit, hfind]
      rw [if_pos hhelp, ht]
      rfl
  · intro c args hact hhelp
    cases ha : c.action with
    | none => exact absurd ha hact
    | some a =>
      simp only [Command.run_with_result, ha]
      rw [if_pos hhelp]

/-- Witness for the amended C5: the hello application on
`["prog", "--help"]` and the hello command on `["-h"]`. -/
theorem help_flag_short_circuits_witness :
    App.run_with_result helloApp ["prog".toList, "--help".toList]
      = some (.appHelp ((App.help_text helloApp).getD []), .ok)
  ∧ helloCmd.run_with_result ["-h".toList]
      = (.cmdHelp helloCmd.help_text, .ok) := by
  refine ⟨?_, help_flag_short_circuits.2 helloCmd ["-h".toList]
    (by decide) (by decide)⟩
  have h := (help_flag_short_circuits.1 helloApp ["prog".toList, "--help".toList]
    ("prog".toList) ["--help".toList] (by decide) (by decide) (by decide)
    (by decide)).2
  rw [h]
  decide

/-- C7: with an empty command list, the maximum-name-length computation
of `App::command_help_text` unwraps `None` and panics, so application
help rendering panics, and dispatch on any argument vector containing a
help flag (which then matches no command) panics instead of printing
help. -/
theorem empty_commands_help_panics (app : App) (hc : app.commands = [])
    (args : List Tok) (cmd : Tok) (rest : List Tok)
    (hsplit : normalized_args args = cmd :: rest)
    (hhelp : hFlag ∈ cmd :: rest ∨ helpFlag ∈ cmd :: rest) :
    App.command_help_text app = none
  ∧ App.help_text app = none
  ∧ App.run_with_result app args = none := by
  have h1 : App.command_help_text app = none := by
    simp [App.command_help_text, hc]
  have h2 : App.help_text app = none := by
    simp [App.help_text, h1]
  refine ⟨h1, h2, ?_⟩
  have hfind : app.commands.find? (fun c => cmdMatches c cmd) = none := by
    simp [hc]
  simp only [App.run_with_result, hsplit, hfind]
  rw [if_pos hhelp, h2]

/-- Witness for C7. -/
theorem empty_commands_help_panics_witness :
    App.command_help_text emptyApp = none
  ∧ App.help_text emptyApp = none
  ∧ App.run_with_result emptyApp ["prog".toList, "-h".toList] = none :=
  empty_commands_help_panics emptyApp rfl ["prog".toList, "-h".toList]
    ("prog".toList) ["-h".toList] (by decide) (by decide)

/-- C6: `App::command` panics iff a command with an equal name is
already registered; otherwise it appends the command at the end,
preserving insertion order and the no-duplicate-names invariant. -/
theorem command_registration (app : App) (c : Command) :
    (App.command app c = none ↔ ∃ r ∈ app.commands, r.name = c.name)
  ∧ ((¬ ∃ r ∈ app.commands, r.name = c.name) →
        App.command app c = some ⟨app.usage, app.commands ++ [c]⟩)
  ∧ (∀ app', App.command app c = some app' →
        app'.commands = app.commands ++ [c]
      ∧ ((app.commands.map Command.name).Nodup →
          (app'.commands.map Command.name).Nodup)) := by
  have hiff : (app.commands.any (fun r => r.name == c.name) = true)
      ↔ ∃ r ∈ app.commands, r.name = c.name := by
    simp [List.any_eq_true]
  by_cases hany : app.commands.any (fun r => r.name == c.name) = true
  · have hres : App.command app c = none := by
      simp [App.command, hany]
    refine ⟨by simp [hres, hiff.mp hany], ?_, ?_⟩
    · intro hne
      exact absurd (hiff.mp hany) hne
    · intro app' h
      rw [hres] at h
      cases h
  · have hres : App.command app c = some ⟨app.usage, app.commands ++ [c]⟩ := by
      simp [App.command, hany]
    have hnotex : ¬ ∃ r ∈ app.commands, r.name = c.name := fun h => hany (hiff.mpr h)
    refine ⟨by simp [hres, hnotex], fun _ => hres, ?_⟩
    intro app' h
    rw [hres] at h
    cases h
    refine ⟨rfl, ?_⟩
    intro hnd
    have hnotin : c.name ∉ app.commands.map Command.name := by
      intro hmem
      rcases List.mem_map.mp hmem with ⟨r, hr, hrname⟩
      exact hnotex ⟨r, hr, hrname⟩
    simp [List.map_append, List.nodup_append, hnd, hnotin]

/-- Witness for C6: registering `hello` in the empty application
succeeds and appends it. -/
theorem command_registration_witness :
    App.command emptyApp helloCmd
      = some ⟨emptyApp.usage, emptyApp.commands ++ [helloCmd]⟩ :=
  (command_registration emptyApp helloCmd).2.1 (by decide)

/-- C9 (counterexample): App-level dispatch does not always return
success on a non-empty argument vector — with no registered commands and
a help flag it panics while rendering help. -/
theorem app_dispatch_panics_counterexample :
    App.run_with_result emptyApp ["cli".toList, "-h".toList] = none := by decide

/-- C9 (amended): whenever App-level dispatch returns a result (it can
panic instead, e.g. while rendering help with an empty command list),
that result is success — it never returns the `NotFound` error or any
other error, regardless of whether the candidate token matches a
registered command. -/
theorem app_dispatch_never_errors (app : App) (args : List Tok)
    (r : Effect × DispatchResult) (h : App.run_with_result app args = some r) :
    r.2 = DispatchResult.ok := by
  unfold App.run_with_result at h
  cases hn : normalized_args args with
  | nil =>
    rw [hn] at h
    cases h
  | cons cmd rest =>
    rw [hn] at h
    dsimp only at h
    cases hf : app.commands.find? (fun c => cmdMatches c cmd) with
    | some c =>
      rw [hf] at h
      cases h
      exact command_run_snd_ok c rest
    | none =>
      rw [hf] at h
      by_cases hh : hFlag ∈ cmd :: rest ∨ helpFlag ∈ cmd :: rest
      · rw [if_pos hh] at h
        cases ht : App.help_text app with
        | none =>
          rw [ht] at h
          cases h
        | some t =>
          rw [ht] at h
          cases h
          rfl
      · rw [if_neg hh] at h
        cases h
        rfl

/-- Witness for the amended C9. -/
theorem app_dispatch_never_errors_witness :
    App.run_with_result helloOnlyApp ["prog".toList]
      = some (.appAction [], .ok)
  ∧ (Effect.appAction ([] : List Tok), DispatchResult.ok).2 = DispatchResult.ok :=
  ⟨by decide, app_dispatch_never_errors helloOnlyApp ["prog".toList]
    (Effect.appAction [], DispatchResult.ok) (by decide)⟩

/-- C10: for an App with at least one registered command, a maximum
rendered-name length `m` exists, the help text is the header followed by
one line per registered command in order (each rendering the aliases
comma-joined first, then the name), each rendered name is at most `m`
long so name plus padding is exactly `m` characters (the description
column is aligned), and an absent description renders as the empty
string. -/
theorem app_help_lists_all_commands (app : App) (hne : app.commands ≠ []) :
    ((app.commands.map (fun c => (commandNameRendered c).length)).max?).isSome = true
  ∧ ∀ m, (app.commands.map (fun c => (commandNameRendered c).length)).max? = some m →
      App.command_help_text app
        = some ("\nCommands:\n".toList ++ (app.commands.map (helpLine m)).flatten)
    ∧ (∀ c ∈ app.commands,
          (commandNameRendered c).length ≤ m
        ∧ (commandNameRendered c
            ++ List.replicate (m - (commandNameRendered c).length) ' ').length = m)
    ∧ (∀ c ∈ app.commands, c.description = none → descOr c = []) := by
  constructor
  · cases hm : (app.commands.map (fun c => (commandNameRendered c).length)).max? with
    | none =>
      rw [List.max?_eq_none_iff] at hm
      exact absurd (List.map_eq_nil_iff.mp hm) hne
    | some m => rfl
  · intro m hm
    have hle : ∀ c ∈ app.commands, (commandNameRendered c).length ≤ m := by
      intro c hcmem
      have hmem : (commandNameRendered c).length
          ∈ app.commands.map (fun k => (commandNameRendered k).length) :=
        List.mem_map_of_mem _ hcmem
      exact ((List.max?_le_iff (fun _ _ _ => Nat.max_le) hm).mp
        (Nat.le_refl m)) _ hmem
    refine ⟨by simp [App.command_help_text, hm], ?_, ?_⟩
    · intro c hcmem
      have h := hle c hcmem
      refine ⟨h, ?_⟩
      simp [List.length_append]
      omega
    · intro c _ hd
      simp [descOr, hd]

/-- Witness for C10 at the hello application, whose only rendered name
`hi, hello` has length 9. -/
theorem app_help_lists_all_commands_witness :
    ((helloApp.commands.map (fun c => (commandNameRendered c).length)).max?).isSome
      = true
  ∧ App.command_help_text helloApp
      = some ("\nCommands:\n".toList ++ (helloApp.commands.map (helpLine 9)).flatten) :=
  ⟨(app_help_lists_all_commands helloApp (by decide)).1,
   ((app_help_lists_all_commands helloApp (by decide)).2 9 (by decide)).1⟩

end Suihorse
